import Mathlib

/-!
Verification of `stl_benchmark`.

A shallow embedding of `stl_benchmark.cpp`: the payload classes `A` and `Foo`,
the three timer classes (`Timer1` in its Linux variant, `Timer2`, `Timer3`),
the `print` helper and the driver `main`, followed by theorems about them.

Conventions of the embedding.

* A C++ `int` is an `Int` reduced into the signed 32-bit range by `wrap32`
  wherever the program computes one; `uint64_t` and `clock_t` are reduced by
  `wrapU64` and `wrap64`.
* A C++ `double` is the rational number it holds; every operation that yields a
  `double` (an arithmetic operation, a conversion from an integer type) rounds
  its exact result to the nearest binary64 value by `toDouble`. Infinities and
  NaN are not modelled: the values the timers form stay far below the largest
  finite `double`.
* A `Foo*` is the `Foo` it points to.
* The clock is a function from the number of the reading (0 for the first call
  of `Start`, 1 for the first call of `Stop`, and so on) to the timestamp read.
* The order in which `std::unordered_map` hands out its elements is a function
  `hashOrder` on the stored entries; theorems assume only that what it hands
  out is a permutation of what is stored.
* Dereferencing a slot that holds no payload is undefined: the traversals that
  index (`_vector[i]`, `array[i]`) return `Option`.
-/

namespace StlBenchmark

/-! ## Machine integers -/

/-- Largest value of a C++ `int`. -/
def INT_MAX : Int := 2147483647

/-- Reduction of an integer into the range of a 32-bit two's complement `int`. -/
def wrap32 (z : Int) : Int := (z + 2147483648) % 4294967296 - 2147483648

/-- Reduction of an integer into the range of a 64-bit signed integer. -/
def wrap64 (z : Int) : Int :=
  (z + 9223372036854775808) % 18446744073709551616 - 9223372036854775808

/-- Conversion of an integer to `uint64_t`. -/
def wrapU64 (z : Int) : Nat := (z % 18446744073709551616).toNat

/-- Conversion of a `double` to an integer type: the fraction is discarded. -/
def truncQ (q : ℚ) : Int := Int.tdiv q.num q.den

/-! ## Doubles -/

/-- The integer nearest to `x`; of two equally near ones, the even one. -/
def roundHalfEven (x : ℚ) : Int :=
  if x - ⌊x⌋ < 1 / 2 then ⌊x⌋
  else if 1 / 2 < x - ⌊x⌋ then ⌊x⌋ + 1
  else if ⌊x⌋ % 2 = 0 then ⌊x⌋ else ⌊x⌋ + 1

/-- Exponent of the spacing of the binary64 values around `q`: 52 below the
exponent of `q` (a 53-bit significand), and not below -1074 (the subnormal
range). -/
def ulpExp (q : ℚ) : Int := max (Int.log 2 |q| - 52) (-1074)

/-- The `double` nearest to `q`: rounding to nearest, ties to even. -/
def toDouble (q : ℚ) : ℚ := (roundHalfEven (q / 2 ^ ulpExp q) : ℚ) * 2 ^ ulpExp q

/-! ## Payload: `std::to_string`, `A`, `Foo` -/

/-- The character of a decimal digit. -/
def digitChar : Nat → Char
  | 0 => '0' | 1 => '1' | 2 => '2' | 3 => '3' | 4 => '4'
  | 5 => '5' | 6 => '6' | 7 => '7' | 8 => '8' | _ => '9'

/-- Decimal digits of `n`, most significant first, put in front of `acc`.
The first argument bounds the number of digits produced. -/
def digitsCore : Nat → Nat → List Char → List Char
  | 0, _, acc => acc
  | fuel + 1, n, acc =>
    if n / 10 = 0 then digitChar (n % 10) :: acc
    else digitsCore fuel (n / 10) (digitChar (n % 10) :: acc)

/-- The library function `std::to_string (int)`, which formats as `%d` does: a
minus sign for a negative value, then the decimal digits of the magnitude. -/
def to_string (x : Int) : String :=
  if x < 0 then String.mk ('-' :: digitsCore (x.natAbs + 1) x.natAbs [])
  else String.mk (digitsCore (x.natAbs + 1) x.natAbs [])

/-- Class `A`: an `int` and its decimal string. -/
structure A where
  c : Int
  string : String
deriving DecidableEq

/-- Constructor `A::A(int x)`. -/
def A.new (x : Int) : A := { c := x, string := to_string x }

/-- Method `A::GetString`. -/
def A.GetString (a : A) : String := a.string

/-- Class `Foo`: an `int`, an owned `A` and a second pointer that stays `NULL`. -/
structure Foo where
  x : Int
  a1 : A
  a2 : Option A
deriving DecidableEq

/-- Constructor `Foo::Foo(int x)`. -/
def Foo.new (x : Int) : Foo := { x := x, a1 := A.new x, a2 := none }

/-- Method `Foo::Get`. -/
def Foo.Get (f : Foo) : Int := f.x

/-- Method `Foo::GetString`. -/
def Foo.GetString (f : Foo) : String := f.a1.GetString

/-! ### Reading a decimal string back (used to state the round trip) -/

/-- Value of a digit character. -/
def digitVal (c : Char) : Nat := c.toNat - 48

/-- Whether the character is one of `0` to `9`. -/
def isDigit (c : Char) : Bool := decide (48 ≤ c.toNat) && decide (c.toNat ≤ 57)

/-- Value of a sequence of digit characters, most significant first. -/
def parseDigits (cs : List Char) : Nat := cs.foldl (fun a c => 10 * a + digitVal c) 0

/-- Value of an optionally signed decimal string. -/
def parseDecimal (s : String) : Int :=
  match s.data with
  | '-' :: cs => -((parseDigits cs : Nat) : Int)
  | cs => ((parseDigits cs : Nat) : Int)

/-! ## Timers -/

/-- A `timespec` as filled in by `clock_gettime`. -/
structure timespec where
  tv_sec : Int
  tv_nsec : Int
deriving DecidableEq

/-- Nanoseconds from the first `timespec` to the second. -/
def timespec.nsBetween (a b : timespec) : Int :=
  (b.tv_sec - a.tv_sec) * 1000000000 + (b.tv_nsec - a.tv_nsec)

/-- Class `Timer1`, Linux variant. `elapsed` is a `uint64_t`. -/
structure Timer1 where
  start : timespec
  end_ : timespec
  elapsed : Nat
deriving DecidableEq

/-- Method `Timer1::Start`: `clock_gettime (CLOCK_MONOTONIC, &start)`. -/
def Timer1.Start (t : Timer1) (now : timespec) : Timer1 := { t with start := now }

/-- Method `Timer1::Stop`: reads `end`, then
`elapsed = end.tv_nsec - start.tv_nsec`, stored in a `uint64_t`. -/
def Timer1.Stop (t : Timer1) (now : timespec) : Timer1 :=
  { t with end_ := now, elapsed := wrapU64 (now.tv_nsec - t.start.tv_nsec) }

/-- Method `Timer1::GetTicks`: `elapsed` converted to `double`. -/
def Timer1.GetTicks (t : Timer1) : ℚ := toDouble (t.elapsed : ℚ)

/-- Method `Timer1::GetMs`: `elapsed / 1000000UL`, an integer division, whose
result is converted to `double`. -/
def Timer1.GetMs (t : Timer1) : ℚ := toDouble ((t.elapsed / 1000000 : Nat) : ℚ)

/-- Class `Timer2`. The time points count ticks of `high_resolution_clock`
(a 64-bit count), `elapsed` is a `duration<double>`: seconds. -/
structure Timer2 where
  start : Int
  end_ : Int
  elapsed : ℚ
deriving DecidableEq

/-- Method `Timer2::Start`. -/
def Timer2.Start (t : Timer2) (now : Int) : Timer2 := { t with start := now }

/-- The library conversion of a tick count of a clock whose tick lasts
`num / den` seconds to a `duration<double>` (`duration_cast` with `double` as
the common type): with the period in lowest terms, the count is converted to
`double`, multiplied by the numerator unless that is 1, and divided by the
denominator unless that is 1. -/
def toSeconds (num den : Nat) (count : Int) : ℚ :=
  let n := num / Nat.gcd num den
  let d := den / Nat.gcd num den
  if n = 1 ∧ d = 1 then toDouble (count : ℚ)
  else if d = 1 then toDouble (toDouble (count : ℚ) * toDouble (n : ℚ))
  else if n = 1 then toDouble (toDouble (count : ℚ) / toDouble (d : ℚ))
  else toDouble (toDouble (toDouble (count : ℚ) * toDouble (n : ℚ)) / toDouble (d : ℚ))

/-- Method `Timer2::Stop`: `elapsed = (end - start)`, the tick difference
converted to seconds; one tick lasts `num / den` seconds. -/
def Timer2.Stop (num den : Nat) (t : Timer2) (now : Int) : Timer2 :=
  { t with end_ := now, elapsed := toSeconds num den (wrap64 (now - t.start)) }

/-- Method `Timer2::GetMs`: `duration_cast<milliseconds> (elapsed).count ()`.
The cast multiplies the seconds by 1000 in `double` and cuts the fraction off;
the integer count is returned as a `double`. -/
def Timer2.GetMs (t : Timer2) : ℚ :=
  toDouble ((truncQ (toDouble (t.elapsed * 1000)) : Int) : ℚ)

/-- Method `Timer2::GetTicks`: `elapsed.count ()`. -/
def Timer2.GetTicks (t : Timer2) : ℚ := t.elapsed

/-- Class `Timer3`. All three members are `clock_t`. -/
structure Timer3 where
  start : Int
  end_ : Int
  elapsed : Int
deriving DecidableEq

/-- Method `Timer3::Start`. -/
def Timer3.Start (t : Timer3) (now : Int) : Timer3 := { t with start := now }

/-- Method `Timer3::Stop`: `elapsed = end - start`. -/
def Timer3.Stop (t : Timer3) (now : Int) : Timer3 :=
  { t with end_ := now, elapsed := wrap64 (now - t.start) }

/-- Method `Timer3::GetMs`: `elapsed / (double) CLOCKS_PER_SEC`, times `1000.`;
both operands of the division are converted to `double`. -/
def Timer3.GetMs (CLOCKS_PER_SEC : Nat) (t : Timer3) : ℚ :=
  let timeInSeconds : ℚ := toDouble (toDouble (t.elapsed : ℚ) / toDouble (CLOCKS_PER_SEC : ℚ))
  toDouble (timeInSeconds * 1000)

/-- Method `Timer3::GetTicks`: `elapsed` converted to `double`. -/
def Timer3.GetTicks (t : Timer3) : ℚ := toDouble (t.elapsed : ℚ)

/-! ## Output -/

/-- One output statement of the program. -/
inductive Line where
  /-- The line a timer prints when constructed: its text and the number shown. -/
  | ident (text : String) (value : Int)
  /-- `"Allocating elements\n"`. -/
  | allocating
  /-- `"Number of elements: " << n << "  ms: " << (int) timer.GetMs ()`; the
  cast is taken to cut the fraction off. -/
  | elements (n : Int) (ms : Int)
  /-- `"\n*****\n" << type`. -/
  | header (type : String)
  /-- `"ms: " << time`. -/
  | ms (time : ℚ)
  /-- `"ticks: " << ticks`. -/
  | ticks (ticks : ℚ)
  /-- `"Total: " << total`. -/
  | total (total : Int)
deriving DecidableEq

/-- What the macro `TIMER` stands for: a timer class with its four methods and
the line its constructor prints (a text and a number). `T` is the class, `Stamp` what its clock reads. -/
structure TimerOps (T Stamp : Type) where
  identText : String
  identValue : Int
  Start : T → Stamp → T
  Stop : T → Stamp → T
  GetMs : T → ℚ
  GetTicks : T → ℚ

/-- `TIMER = Timer1` on Linux; `frequency` is what `clock_getres` reported. -/
def Timer1.ops (frequency : Int) : TimerOps Timer1 timespec where
  identText := "Timer: Linux High Precision   Frequency: "
  identValue := frequency
  Start := Timer1.Start
  Stop := Timer1.Stop
  GetMs := Timer1.GetMs
  GetTicks := Timer1.GetTicks

/-- `TIMER = Timer2`; the clock's period is `num / den` seconds. -/
def Timer2.ops (num den : Nat) : TimerOps Timer2 Int where
  identText := "Timer: std::chrono  Precision:"
  identValue := den
  Start := Timer2.Start
  Stop := Timer2.Stop num den
  GetMs := Timer2.GetMs
  GetTicks := Timer2.GetTicks

/-- `TIMER = Timer3`. -/
def Timer3.ops (CLOCKS_PER_SEC : Nat) : TimerOps Timer3 Int where
  identText := "Timer: clock()   Precision: Clocks/Second: "
  identValue := CLOCKS_PER_SEC
  Start := Timer3.Start
  Stop := Timer3.Stop
  GetMs := Timer3.GetMs CLOCKS_PER_SEC
  GetTicks := Timer3.GetTicks

/-- Function `print`. -/
def print {T Stamp : Type} (ops : TimerOps T Stamp) (type : String) (timer : T) : List Line :=
  let time := ops.GetMs timer
  let ticks := ops.GetTicks timer
  [Line.header type, Line.ms time] ++ (if ticks ≠ 0 then [Line.ticks ticks] else [])

/-! ## Containers -/

/-- `_map[k] = v` on a `std::map`, kept as its entries in ascending key order. -/
def mapAssign (k : Int) (v : Foo) : List (Int × Foo) → List (Int × Foo)
  | [] => [(k, v)]
  | (k1, v1) :: rest =>
    if k < k1 then (k, v) :: (k1, v1) :: rest
    else if k = k1 then (k, v) :: rest
    else (k1, v1) :: mapAssign k v rest

/-- `_unordered[k] = v` on a `std::unordered_map`, kept as its entries: the
entry of an existing key is overwritten, a new key adds an entry. -/
def unorderedAssign (k : Int) (v : Foo) : List (Int × Foo) → List (Int × Foo)
  | [] => [(k, v)]
  | (k1, v1) :: rest =>
    if k = k1 then (k, v) :: rest else (k1, v1) :: unorderedAssign k v rest

/-- The five containers of `main`. A slot of `array` is `none` until written. -/
structure Containers where
  _map : List (Int × Foo)
  _unordered : List (Int × Foo)
  _vector : List Foo
  _list : List Foo
  array : List (Option Foo)
deriving DecidableEq

/-- The containers as declared: four empty ones and the `malloc`ed buffer, of
which the program uses the slots `0 .. n - 1`. -/
def Containers.init (n : Nat) : Containers :=
  { _map := [], _unordered := [], _vector := [], _list := [], array := List.replicate n none }

/-- Body of the allocation loop for the `size_t` counter `i`; as key, index
into the `int`-keyed maps and constructor argument, `i` is converted to `int`. -/
def populateStep (c : Containers) (i : Nat) : Containers :=
  { _map := mapAssign (wrap32 i) (Foo.new (wrap32 i)) c._map
    _unordered := unorderedAssign (wrap32 i) (Foo.new (wrap32 i)) c._unordered
    _list := c._list ++ [Foo.new (wrap32 i)]
    _vector := c._vector ++ [Foo.new (wrap32 i)]
    array := c.array.set i (some (Foo.new (wrap32 i))) }

/-- The allocation loop `for (size_t i = 0; i < n; ++i)`. -/
def populate (n : Nat) (c : Containers) : Containers :=
  (List.range n).foldl populateStep c

/-! ## Driver -/

/-- Body of every traversal loop: `total += p->Get ()`, then the string is
copied into a local that is dropped. -/
def accumulate (total : Int) (p : Foo) : Int :=
  let total := wrap32 (total + p.Get)
  let _str := p.GetString
  total

/-- A range-based traversal of a map: `for (const auto& i : m)`. -/
def traverseMap (entries : List (Int × Foo)) (total : Int) : Int :=
  entries.foldl (fun t kv => accumulate t kv.2) total

/-- A range-based traversal of the list: `for (Foo* i : _list)`. -/
def traverseList (l : List Foo) (total : Int) : Int :=
  l.foldl accumulate total

/-- An indexed traversal `for (int i = 0; i < n; ++i)` reading slot `i`. -/
def traverseIndexed (slot : Nat → Option Foo) (n : Nat) (total : Int) : Option Int :=
  (List.range n).foldlM (fun t i => (slot i).map (accumulate t)) total

/-- What a run leaves behind: the output and the accumulator after each traversal. -/
structure Run where
  out : List Line
  mapTotal : Int
  unorderedTotal : Int
  vectorTotal : Int
  listTotal : Int
  arrayTotal : Int
  actual : Int
deriving DecidableEq

/-- The check after a traversal: `if (total != actual) cout << "Total: " << total`. -/
def crossCheck (total actual : Int) : List Line :=
  if total ≠ actual then [Line.total total] else []

/-- The five measurements of `main` (from `//STL map` to the last cross-check),
entered with the containers `c`, the timer and the accumulator `total`. -/
def measure {T Stamp : Type} (ops : TimerOps T Stamp) (clock : Nat → Stamp)
    (hashOrder : List (Int × Foo) → List (Int × Foo))
    (n : Nat) (c : Containers) (timer : T) (total : Int) : Option Run := do
  -- STL map
  let timer := ops.Start timer (clock 2)
  let total := traverseMap c._map total
  let timer := ops.Stop timer (clock 3)
  let out := print ops "stl map" timer
  let actual := total
  let mapTotal := total
  -- STL unordered map
  let total := 0
  let timer := ops.Start timer (clock 4)
  let total := traverseMap (hashOrder c._unordered) total
  let timer := ops.Stop timer (clock 5)
  let out := out ++ print ops "stl unordered_map" timer
  let out := out ++ crossCheck total actual
  let unorderedTotal := total
  -- STL vector
  let total := 0
  let timer := ops.Start timer (clock 6)
  let total ← traverseIndexed (fun i => c._vector[i]?) n total
  let timer := ops.Stop timer (clock 7)
  let out := out ++ print ops "stl vector" timer
  let out := out ++ crossCheck total actual
  let vectorTotal := total
  -- STL list
  let total := 0
  let timer := ops.Start timer (clock 8)
  let total := traverseList c._list total
  let timer := ops.Stop timer (clock 9)
  let out := out ++ print ops "stl list" timer
  let out := out ++ crossCheck total actual
  let listTotal := total
  -- array
  let total := 0
  let timer := ops.Start timer (clock 10)
  let total ← traverseIndexed (fun i => (c.array[i]?).join) n total
  let timer := ops.Stop timer (clock 11)
  let out := out ++ print ops "array" timer
  let out := out ++ crossCheck total actual
  let arrayTotal := total
  pure { out := out, mapTotal := mapTotal, unorderedTotal := unorderedTotal,
         vectorTotal := vectorTotal, listTotal := listTotal, arrayTotal := arrayTotal,
         actual := actual }

/-- Function `main` for the element count `n`; `timer` is the timer object as
its constructor leaves it. -/
def main {T Stamp : Type} (ops : TimerOps T Stamp) (clock : Nat → Stamp)
    (hashOrder : List (Int × Foo) → List (Int × Foo))
    (timer : T) (n : Nat) : Option Run :=
  let total : Int := 0
  let c := Containers.init n
  let timer := ops.Start timer (clock 0)
  let c := populate n c
  let timer := ops.Stop timer (clock 1)
  let out := [Line.ident ops.identText ops.identValue, Line.allocating,
    Line.elements n (truncQ (ops.GetMs timer))]
  (measure ops clock hashOrder n c timer total).map
    (fun r => { r with out := out ++ r.out })

/-! ## Readers of the output (used to state what a run prints) -/

/-- The labels of the measurement blocks of an output, in order. -/
def labels (out : List Line) : List String :=
  out.filterMap (fun l => match l with | Line.header type => some type | _ => none)

/-- The values of the `Total:` lines of an output, in order. -/
def totalLines (out : List Line) : List Int :=
  out.filterMap (fun l => match l with | Line.total t => some t | _ => none)

/-- Whether the line is not the header of a measurement block. -/
def notHeader : Line → Bool
  | Line.header _ => false
  | _ => true

/-- The lines of the measurement block labelled `type`: from its header up to
the next header. -/
def block (type : String) : List Line → List Line
  | [] => []
  | Line.header t :: rest =>
    if t = type then Line.header t :: rest.takeWhile notHeader else block type rest
  | _ :: rest => block type rest

/-- The lines of `print` after the header. -/
def printBody {T Stamp : Type} (ops : TimerOps T Stamp) (timer : T) : List Line :=
  [Line.ms (ops.GetMs timer)]
    ++ (if ops.GetTicks timer ≠ 0 then [Line.ticks (ops.GetTicks timer)] else [])

/-- An output line without its timing: a `ticks:` line disappears, the number
of an `ms:` field is blanked. -/
def eraseTiming : Line → Option Line
  | Line.ms _ => some (Line.ms 0)
  | Line.ticks _ => none
  | Line.elements n _ => some (Line.elements n 0)
  | l => some l

/-- A timer with all members zero, for concrete runs. -/
def Timer2.zero : Timer2 := { start := 0, end_ := 0, elapsed := 0 }

/-! ## The state the allocation loop reaches (used to state its invariant) -/

/-- The payload the allocation loop builds for index `i`. -/
def payload (i : Nat) : Foo := Foo.new (i : Int)

/-- The map entry the allocation loop builds for index `i`. -/
def entry (i : Nat) : Int × Foo := ((i : Int), Foo.new (i : Int))

/-- The containers after `k` rounds of the allocation loop for `n` elements. -/
def filled (n k : Nat) : Containers :=
  { _map := (List.range k).map entry
    _unordered := (List.range k).map entry
    _vector := (List.range k).map payload
    _list := (List.range k).map payload
    array := (List.range k).map (fun i => some (payload i)) ++ List.replicate (n - k) none }

/-- The sum `0 + 1 + ... + (n - 1)` as the 32-bit accumulator holds it. -/
def checksum (n : Nat) : Int := wrap32 ((n : Int) * ((n : Int) - 1) / 2)

/-! ## Lemmas on the decimal conversion -/

theorem digitVal_digitChar (d : Nat) (h : d < 10) : digitVal (digitChar d) = d := by
  interval_cases d <;> rfl

theorem isDigit_digitChar (d : Nat) : isDigit (digitChar d) = true := by
  unfold digitChar
  split <;> rfl

theorem digitChar_eq_zero (d : Nat) (h : d < 10) (h0 : digitChar d = '0') : d = 0 := by
  interval_cases d <;> first | rfl | (exact absurd h0 (by decide))

theorem digitsCore_append (fuel : Nat) : ∀ (n : Nat) (acc : List Char),
    digitsCore fuel n acc = digitsCore fuel n [] ++ acc := by
  induction fuel with
  | zero => intro n acc; simp [digitsCore]
  | succ k ih =>
    intro n acc
    simp only [digitsCore]
    split
    · simp
    · rw [ih (n / 10) (digitChar (n % 10) :: acc), ih (n / 10) [digitChar (n % 10)]]
      simp

theorem digitsCore_succ (k n : Nat) :
    digitsCore (k + 1) n [] =
      if n / 10 = 0 then [digitChar (n % 10)]
      else digitsCore k (n / 10) [] ++ [digitChar (n % 10)] := by
  simp only [digitsCore]
  split
  · rfl
  · exact digitsCore_append k (n / 10) _

theorem parseDigits_concat (l : List Char) (c : Char) :
    parseDigits (l ++ [c]) = 10 * parseDigits l + digitVal c := by
  simp [parseDigits, List.foldl_append]

theorem digitsCore_parse (fuel : Nat) : ∀ n : Nat, n < fuel →
    parseDigits (digitsCore fuel n []) = n := by
  induction fuel with
  | zero => intro n h; omega
  | succ k ih =>
    intro n h
    rw [digitsCore_succ]
    split
    · rename_i h0
      have hd := digitVal_digitChar (n % 10) (by omega)
      have hn : n % 10 = n := by omega
      simp only [parseDigits, List.foldl_cons, List.foldl_nil, hd]
      omega
    · rename_i h0
      rw [parseDigits_concat, ih (n / 10) (by omega), digitVal_digitChar (n % 10) (by omega)]
      omega

theorem digitsCore_isDigit (fuel : Nat) : ∀ n : Nat, ∀ c ∈ digitsCore fuel n [], isDigit c = true := by
  induction fuel with
  | zero => intro n c hc; simp [digitsCore] at hc
  | succ k ih =>
    intro n c hc
    rw [digitsCore_succ] at hc
    split at hc
    · simp at hc; rw [hc]; exact isDigit_digitChar _
    · simp at hc
      rcases hc with hc | hc
      · exact ih _ c hc
      · rw [hc]; exact isDigit_digitChar _

theorem digitsCore_ne_nil (k n : Nat) : digitsCore (k + 1) n [] ≠ [] := by
  rw [digitsCore_succ]
  split <;> simp

theorem digitsCore_head (fuel : Nat) : ∀ n : Nat, n < fuel → 0 < n →
    (digitsCore fuel n []).head? ≠ some '0' := by
  induction fuel with
  | zero => intro n h; omega
  | succ k ih =>
    intro n h hpos
    rw [digitsCore_succ]
    split
    · rename_i h0
      simp only [List.head?_cons, ne_eq, Option.some.injEq]
      intro hc
      have := digitChar_eq_zero (n % 10) (by omega) hc
      omega
    · rename_i h0
      have hk : 0 < k := by omega
      obtain ⟨j, rfl⟩ : ∃ j, k = j + 1 := ⟨k - 1, by omega⟩
      rw [List.head?_append_of_ne_nil _ (digitsCore_ne_nil j (n / 10))]
      exact ih (n / 10) (by omega) (by omega)

theorem parseDecimal_digits (l : List Char) (h : ∀ c ∈ l, isDigit c = true) :
    parseDecimal (String.mk l) = ((parseDigits l : Nat) : Int) := by
  unfold parseDecimal
  split
  · rename_i cs heq
    simp only at heq
    have := h '-' (by rw [heq]; simp)
    exact absurd this (by decide)
  · rfl

theorem parseDecimal_to_string (x : Int) : parseDecimal (to_string x) = x := by
  unfold to_string
  split
  · rename_i hx
    simp only [parseDecimal]
    rw [digitsCore_parse _ _ (Nat.lt_succ_self _)]
    omega
  · rename_i hx
    rw [parseDecimal_digits _ (digitsCore_isDigit _ _), digitsCore_parse _ _ (Nat.lt_succ_self _)]
    omega

/-! ## Lemmas on the accumulator and the traversals -/

theorem wrap32_add_left (a b : Int) : wrap32 (wrap32 a + b) = wrap32 (a + b) := by
  unfold wrap32; omega

theorem wrap32_of_inRange (z : Int) (h1 : -2147483648 ≤ z) (h2 : z ≤ 2147483647) :
    wrap32 z = z := by
  unfold wrap32; omega

theorem wrap32_inRange (z : Int) : -2147483648 ≤ wrap32 z ∧ wrap32 z ≤ 2147483647 := by
  unfold wrap32; omega

theorem wrap32_natCast (i : Nat) (h : (i : Int) ≤ INT_MAX) : wrap32 (i : Int) = (i : Int) := by
  unfold INT_MAX at h
  exact wrap32_of_inRange _ (by omega) h

theorem traverseList_wrap (l : List Foo) : ∀ t : Int,
    traverseList l (wrap32 t) = wrap32 (t + (l.map Foo.Get).sum) := by
  induction l with
  | nil => intro t; simp [traverseList]
  | cons p ps ih =>
    intro t
    have h := ih (wrap32 t + p.Get)
    simp only [traverseList, List.foldl_cons, accumulate, List.map_cons, List.sum_cons] at h ⊢
    rw [h, add_assoc, wrap32_add_left]

theorem traverseList_zero (l : List Foo) :
    traverseList l 0 = wrap32 ((l.map Foo.Get).sum) := by
  have h := traverseList_wrap l 0
  rw [show wrap32 0 = 0 from rfl, zero_add] at h
  exact h

theorem traverseMap_eq (entries : List (Int × Foo)) (t : Int) :
    traverseMap entries t = traverseList (entries.map Prod.snd) t := by
  simp [traverseMap, traverseList, List.foldl_map]

theorem traverseIndexed_take (slot : Nat → Option Foo) (l : List Foo) (t : Int) :
    ∀ k : Nat, k ≤ l.length → (∀ i, i < k → slot i = l[i]?) →
      traverseIndexed slot k t = some (traverseList (l.take k) t) := by
  intro k
  induction k with
  | zero => intro _ _; simp [traverseIndexed, traverseList]
  | succ k ih =>
    intro hk hs
    have h1 := ih (by omega) (fun i hi => hs i (by omega))
    unfold traverseIndexed at h1 ⊢
    rw [List.range_succ, List.foldlM_append, h1]
    have h2 : slot k = some l[k] := by
      rw [hs k (by omega), List.getElem?_eq_getElem (by omega)]
    have h3 : l[k]? = some l[k] := List.getElem?_eq_getElem (by omega)
    rw [List.take_succ, h3]
    simp only [h2, List.foldlM_cons, List.foldlM_nil, Option.map_some', Option.bind_eq_bind,
      Option.some_bind, Option.pure_def, Option.toList_some, traverseList, List.foldl_append,
      List.foldl_cons, List.foldl_nil]

theorem traverseIndexed_all (slot : Nat → Option Foo) (l : List Foo) (t : Int)
    (hs : ∀ i, i < l.length → slot i = l[i]?) :
    traverseIndexed slot l.length t = some (traverseList l t) := by
  have h := traverseIndexed_take slot l t l.length (le_refl _) hs
  rwa [List.take_length] at h

/-! ## Lemmas on the allocation loop -/

theorem mapAssign_append (k : Int) (v : Foo) (l : List (Int × Foo))
    (h : ∀ e ∈ l, e.1 < k) : mapAssign k v l = l ++ [(k, v)] := by
  induction l with
  | nil => rfl
  | cons e es ih =>
    obtain ⟨k1, v1⟩ := e
    have h1 : k1 < k := h (k1, v1) (by simp)
    have h2 := ih (fun e he => h e (by simp [he]))
    simp only [mapAssign, List.cons_append]
    rw [if_neg (by omega), if_neg (by omega), h2]

theorem unorderedAssign_append (k : Int) (v : Foo) (l : List (Int × Foo))
    (h : ∀ e ∈ l, e.1 ≠ k) : unorderedAssign k v l = l ++ [(k, v)] := by
  induction l with
  | nil => rfl
  | cons e es ih =>
    obtain ⟨k1, v1⟩ := e
    have h1 : k1 ≠ k := h (k1, v1) (by simp)
    have h2 := ih (fun e he => h e (by simp [he]))
    simp only [unorderedAssign, List.cons_append]
    rw [if_neg (fun hh => h1 hh.symm), h2]

theorem populateStep_filled (n k : Nat) (hk : k < n) (hn : (n : Int) ≤ INT_MAX) :
    populateStep (filled n k) k = filled n (k + 1) := by
  have hw : wrap32 (k : Int) = (k : Int) := wrap32_natCast k (by omega)
  have hlt : ∀ e ∈ (List.range k).map entry, e.1 < (k : Int) := by
    intro e he
    simp only [List.mem_map, List.mem_range] at he
    obtain ⟨i, hi, rfl⟩ := he
    simp only [entry]; omega
  have hne : ∀ e ∈ (List.range k).map entry, e.1 ≠ (k : Int) :=
    fun e he => ne_of_lt (hlt e he)
  have hrep : n - k = (n - (k + 1)) + 1 := by omega
  unfold populateStep filled
  simp only [hw, mapAssign_append _ _ _ hlt, unorderedAssign_append _ _ _ hne]
  simp only [List.range_succ, List.map_append, List.map_cons, List.map_nil]
  rw [List.set_append_right _ _ (by simp), hrep, List.replicate_succ]
  simp [entry, payload]

theorem populate_filled (n : Nat) (hn : (n : Int) ≤ INT_MAX) :
    ∀ k : Nat, k ≤ n → populate k (Containers.init n) = filled n k := by
  intro k
  induction k with
  | zero => intro _; simp [populate, Containers.init, filled]
  | succ k ih =>
    intro hk
    have h := ih (by omega)
    unfold populate at h ⊢
    rw [List.range_succ, List.foldl_append, h]
    simp only [List.foldl_cons, List.foldl_nil]
    exact populateStep_filled n k (by omega) hn

theorem populate_eq (n : Nat) (hn : (n : Int) ≤ INT_MAX) :
    populate n (Containers.init n) = filled n n :=
  populate_filled n hn n (le_refl _)

theorem sum_payload_two (n : Nat) :
    2 * (((List.range n).map payload).map Foo.Get).sum = (n : Int) * ((n : Int) - 1) := by
  induction n with
  | zero => simp
  | succ k ih =>
    rw [List.range_succ]
    simp only [List.map_append, List.sum_append, List.map_cons, List.map_nil, List.sum_cons,
      List.sum_nil, mul_add, ih]
    simp only [payload, Foo.new, Foo.Get]
    push_cast
    ring

theorem sum_payload (n : Nat) :
    (((List.range n).map payload).map Foo.Get).sum = (n : Int) * ((n : Int) - 1) / 2 := by
  have h := sum_payload_two n
  generalize (n : Int) * ((n : Int) - 1) = p at h
  omega

theorem sum_entry (n : Nat) :
    ((((List.range n).map entry).map Prod.snd).map Foo.Get).sum
      = (n : Int) * ((n : Int) - 1) / 2 := by
  rw [← sum_payload n]
  simp [entry, payload, Function.comp_def]

/-! ## Lemmas on the driver -/

theorem traverseIndexed_defined (slot : Nat → Option Foo) (t : Int) :
    ∀ n : Nat, (∀ i, i < n → ∃ p, slot i = some p) → ∃ r, traverseIndexed slot n t = some r := by
  intro n
  induction n with
  | zero => intro _; exact ⟨t, rfl⟩
  | succ k ih =>
    intro hs
    obtain ⟨r, hr⟩ := ih (fun i hi => hs i (by omega))
    obtain ⟨p, hp⟩ := hs k (by omega)
    refine ⟨accumulate r p, ?_⟩
    unfold traverseIndexed at hr ⊢
    rw [List.range_succ, List.foldlM_append, hr]
    simp only [hp, List.foldlM_cons, List.foldlM_nil, Option.map_some', Option.bind_eq_bind,
      Option.some_bind, Option.pure_def]

theorem measure_eq {T Stamp : Type} (ops : TimerOps T Stamp) (clock : Nat → Stamp)
    (hashOrder : List (Int × Foo) → List (Int × Foo))
    (n : Nat) (c : Containers) (timer : T) (total tv ta : Int)
    (hv : traverseIndexed (fun i => c._vector[i]?) n 0 = some tv)
    (ha : traverseIndexed (fun i => (c.array[i]?).join) n 0 = some ta) :
    ∃ t1 t2 t3 t4 t5 : T,
      measure ops clock hashOrder n c timer total = some
        { out := print ops "stl map" t1
            ++ print ops "stl unordered_map" t2
            ++ crossCheck (traverseMap (hashOrder c._unordered) 0) (traverseMap c._map total)
            ++ print ops "stl vector" t3
            ++ crossCheck tv (traverseMap c._map total)
            ++ print ops "stl list" t4
            ++ crossCheck (traverseList c._list 0) (traverseMap c._map total)
            ++ print ops "array" t5
            ++ crossCheck ta (traverseMap c._map total)
          mapTotal := traverseMap c._map total
          unorderedTotal := traverseMap (hashOrder c._unordered) 0
          vectorTotal := tv
          listTotal := traverseList c._list 0
          arrayTotal := ta
          actual := traverseMap c._map total } := by
  refine ⟨ops.Stop (ops.Start timer (clock 2)) (clock 3),
    ops.Stop (ops.Start (ops.Stop (ops.Start timer (clock 2)) (clock 3)) (clock 4)) (clock 5),
    ops.Stop (ops.Start (ops.Stop (ops.Start (ops.Stop (ops.Start timer (clock 2)) (clock 3))
      (clock 4)) (clock 5)) (clock 6)) (clock 7),
    ops.Stop (ops.Start (ops.Stop (ops.Start (ops.Stop (ops.Start (ops.Stop (ops.Start timer
      (clock 2)) (clock 3)) (clock 4)) (clock 5)) (clock 6)) (clock 7)) (clock 8)) (clock 9),
    ops.Stop (ops.Start (ops.Stop (ops.Start (ops.Stop (ops.Start (ops.Stop (ops.Start (ops.Stop
      (ops.Start timer (clock 2)) (clock 3)) (clock 4)) (clock 5)) (clock 6)) (clock 7))
      (clock 8)) (clock 9)) (clock 10)) (clock 11), ?_⟩
  simp only [measure, hv, ha, Option.bind_eq_bind, Option.some_bind, Option.pure_def]

theorem crossCheck_self (t : Int) : crossCheck t t = [] := by
  simp [crossCheck]

theorem filled_vector_total (n : Nat) :
    traverseIndexed (fun i => (filled n n)._vector[i]?) n 0
      = some (wrap32 ((n : Int) * ((n : Int) - 1) / 2)) := by
  have h := traverseIndexed_all (fun i => (filled n n)._vector[i]?) (filled n n)._vector 0
    (fun _ _ => rfl)
  have hl : (filled n n)._vector.length = n := by simp [filled]
  rw [hl] at h
  rw [h, traverseList_zero]
  simp only [filled, sum_payload]

theorem filled_array_total (n : Nat) :
    traverseIndexed (fun i => ((filled n n).array[i]?).join) n 0
      = some (wrap32 ((n : Int) * ((n : Int) - 1) / 2)) := by
  have hl : ((List.range n).map payload).length = n := by simp
  have h := traverseIndexed_all (fun i => ((filled n n).array[i]?).join)
    ((List.range n).map payload) 0 (by
      intro i hi
      rw [hl] at hi
      simp [filled, hi, Option.join])
  rw [hl] at h
  rw [h, traverseList_zero, sum_payload]

theorem filled_list_total (n : Nat) :
    traverseList (filled n n)._list 0 = wrap32 ((n : Int) * ((n : Int) - 1) / 2) := by
  rw [traverseList_zero]
  simp only [filled, sum_payload]

theorem filled_map_total (n : Nat) :
    traverseMap (filled n n)._map 0 = wrap32 ((n : Int) * ((n : Int) - 1) / 2) := by
  rw [traverseMap_eq, traverseList_zero]
  simp only [filled, sum_entry]

theorem filled_unordered_total (hashOrder : List (Int × Foo) → List (Int × Foo)) (n : Nat)
    (hp : (hashOrder (filled n n)._unordered).Perm (filled n n)._unordered) :
    traverseMap (hashOrder (filled n n)._unordered) 0
      = wrap32 ((n : Int) * ((n : Int) - 1) / 2) := by
  rw [traverseMap_eq, traverseList_zero]
  have hs := ((hp.map Prod.snd).map Foo.Get).sum_eq
  rw [hs]
  simp only [filled, sum_entry]

theorem main_eq {T Stamp : Type} (ops : TimerOps T Stamp) (clock : Nat → Stamp)
    (hashOrder : List (Int × Foo) → List (Int × Foo))
    (timer : T) (n : Nat) (hn : (n : Int) ≤ INT_MAX)
    (hperm : (hashOrder (populate n (Containers.init n))._unordered).Perm
      (populate n (Containers.init n))._unordered) :
    ∃ (ms : Int) (t1 t2 t3 t4 t5 : T),
      main ops clock hashOrder timer n = some
        { out := [Line.ident ops.identText ops.identValue, Line.allocating, Line.elements n ms]
            ++ (print ops "stl map" t1 ++ print ops "stl unordered_map" t2
              ++ print ops "stl vector" t3 ++ print ops "stl list" t4 ++ print ops "array" t5)
          mapTotal := checksum n
          unorderedTotal := checksum n
          vectorTotal := checksum n
          listTotal := checksum n
          arrayTotal := checksum n
          actual := checksum n } := by
  obtain ⟨t1, t2, t3, t4, t5, h⟩ := measure_eq ops clock hashOrder n (filled n n)
    (ops.Stop (ops.Start timer (clock 0)) (clock 1)) 0 _ _
    (filled_vector_total n) (filled_array_total n)
  refine ⟨truncQ (ops.GetMs (ops.Stop (ops.Start timer (clock 0)) (clock 1))),
    t1, t2, t3, t4, t5, ?_⟩
  rw [populate_eq n hn] at hperm
  unfold main
  simp only [populate_eq n hn, h, Option.map_some']
  simp only [filled_map_total, filled_unordered_total hashOrder n hperm, filled_list_total,
    crossCheck_self, List.append_nil, checksum]

theorem labels_print {T Stamp : Type} (ops : TimerOps T Stamp) (type : String) (t : T) :
    labels (print ops type t) = [type] := by
  unfold labels print
  dsimp only
  split_ifs <;> rfl

theorem totalLines_print {T Stamp : Type} (ops : TimerOps T Stamp) (type : String) (t : T) :
    totalLines (print ops type t) = [] := by
  unfold totalLines print
  dsimp only
  split_ifs <;> rfl

theorem eraseTiming_print {T Stamp : Type} (ops : TimerOps T Stamp) (type : String) (t : T) :
    (print ops type t).filterMap eraseTiming = [Line.header type, Line.ms 0] := by
  unfold print
  dsimp only
  split_ifs <;> rfl

theorem labels_append (a b : List Line) : labels (a ++ b) = labels a ++ labels b := by
  simp [labels, List.filterMap_append]

theorem totalLines_append (a b : List Line) :
    totalLines (a ++ b) = totalLines a ++ totalLines b := by
  simp [totalLines, List.filterMap_append]

theorem labels_crossCheck (t a : Int) : labels (crossCheck t a) = [] := by
  unfold crossCheck labels
  split_ifs <;> rfl

/-! ## Lemmas on the size of the sum -/

theorem triangle_small (n : Nat) (h : n ≤ 65536) :
    0 ≤ (n : Int) * ((n : Int) - 1) / 2 ∧ (n : Int) * ((n : Int) - 1) / 2 ≤ INT_MAX := by
  have h0 : (0 : Int) ≤ (n : Int) * ((n : Int) - 1) := by
    rcases Nat.eq_zero_or_pos n with h0 | h0
    · subst h0; simp
    · have h1 : (1 : Int) ≤ (n : Int) := by exact_mod_cast h0
      have h2 : (0 : Int) ≤ (n : Int) := by omega
      have h3 : (0 : Int) ≤ (n : Int) - 1 := by omega
      exact mul_nonneg h2 h3
  have h1 : (n : Int) * ((n : Int) - 1) ≤ 65536 * 65535 := by
    have hn : (n : Int) ≤ 65536 := by exact_mod_cast h
    nlinarith
  unfold INT_MAX
  generalize (n : Int) * ((n : Int) - 1) = p at h0 h1
  omega

theorem triangle_large (n : Nat) (h : 65536 < n) :
    INT_MAX < (n : Int) * ((n : Int) - 1) / 2 := by
  have h1 : (65537 : Int) * 65536 ≤ (n : Int) * ((n : Int) - 1) := by
    have hn : (65537 : Int) ≤ (n : Int) := by exact_mod_cast h
    nlinarith
  unfold INT_MAX
  generalize (n : Int) * ((n : Int) - 1) = p at h1
  omega

theorem checksum_small (n : Nat) (h : n ≤ 65536) :
    checksum n = (n : Int) * ((n : Int) - 1) / 2 := by
  have h1 := triangle_small n h
  unfold INT_MAX at h1
  exact wrap32_of_inRange _ (by omega) h1.2

theorem checksum_large (n : Nat) (h : 65536 < n) :
    checksum n ≠ (n : Int) * ((n : Int) - 1) / 2 := by
  have h1 := triangle_large n h
  have h2 := wrap32_inRange ((n : Int) * ((n : Int) - 1) / 2)
  unfold INT_MAX at h1
  unfold checksum
  omega

/-! ## Lemmas on the partial sums -/

theorem take_map_range {β : Type} (f : Nat → β) (k n : Nat) (h : k ≤ n) :
    ((List.range n).map f).take k = (List.range k).map f := by
  rw [← List.map_take, List.take_range, min_eq_left h]

theorem filled_list_prefix (n k : Nat) (h : k ≤ n) :
    traverseList ((filled n n)._list.take k) 0 = checksum k := by
  simp only [filled]
  rw [take_map_range payload k n h, traverseList_zero, sum_payload]
  rfl

theorem filled_map_prefix (n k : Nat) (h : k ≤ n) :
    traverseMap ((filled n n)._map.take k) 0 = checksum k := by
  simp only [filled]
  rw [take_map_range entry k n h, traverseMap_eq, traverseList_zero, sum_entry]
  rfl

theorem filled_vector_prefix (n k : Nat) (h : k ≤ n) :
    traverseIndexed (fun i => (filled n n)._vector[i]?) k 0 = some (checksum k) := by
  have hl : (filled n n)._vector.length = n := by simp [filled]
  rw [traverseIndexed_take (fun i => (filled n n)._vector[i]?) (filled n n)._vector 0 k
    (by omega) (fun _ _ => rfl)]
  have := filled_list_prefix n k h
  simp only [filled] at this ⊢
  rw [this]

theorem filled_array_prefix (n k : Nat) (h : k ≤ n) :
    traverseIndexed (fun i => ((filled n n).array[i]?).join) k 0 = some (checksum k) := by
  have hl : ((List.range n).map payload).length = n := by simp
  rw [traverseIndexed_take (fun i => ((filled n n).array[i]?).join)
    ((List.range n).map payload) 0 k (by omega) (by
      intro i hi
      have hi2 : i < n := by omega
      simp [filled, hi2, Option.join])]
  have := filled_list_prefix n k h
  simp only [filled] at this
  rw [this]

/-! ## Lemmas on the measurement blocks of an output -/

theorem block_skip (type : String) (b rest : List Line)
    (hb : ∀ x ∈ b, notHeader x = true) : block type (b ++ rest) = block type rest := by
  induction b with
  | nil => rfl
  | cons x xs ih =>
    have hx := hb x (by simp)
    have hxs := ih (fun y hy => hb y (by simp [hy]))
    cases x <;> first | (simp [notHeader] at hx; done) | simpa [block] using hxs

theorem block_miss (type t : String) (b rest : List Line) (hne : t ≠ type)
    (hb : ∀ x ∈ b, notHeader x = true) :
    block type (Line.header t :: (b ++ rest)) = block type rest := by
  rw [block, if_neg hne, block_skip type b rest hb]

theorem takeWhile_body (b : List Line) (t : String) (rest : List Line)
    (hb : ∀ x ∈ b, notHeader x = true) :
    (b ++ Line.header t :: rest).takeWhile notHeader = b := by
  induction b with
  | nil => simp [List.takeWhile, notHeader]
  | cons x xs ih =>
    have hx := hb x (by simp)
    have hxs := ih (fun y hy => hb y (by simp [hy]))
    simp [List.takeWhile, hx, hxs]

theorem takeWhile_last (b : List Line) (hb : ∀ x ∈ b, notHeader x = true) :
    b.takeWhile notHeader = b := by
  induction b with
  | nil => rfl
  | cons x xs ih =>
    have hx := hb x (by simp)
    have hxs := ih (fun y hy => hb y (by simp [hy]))
    simp [List.takeWhile, hx, hxs]

theorem block_hit (type t : String) (b rest : List Line)
    (hb : ∀ x ∈ b, notHeader x = true) :
    block type (Line.header type :: (b ++ Line.header t :: rest)) = Line.header type :: b := by
  rw [block, if_pos rfl, takeWhile_body b t rest hb]

theorem block_hit_last (type : String) (b : List Line)
    (hb : ∀ x ∈ b, notHeader x = true) :
    block type (Line.header type :: b) = Line.header type :: b := by
  rw [block, if_pos rfl, takeWhile_last b hb]

theorem print_eq {T Stamp : Type} (ops : TimerOps T Stamp) (type : String) (t : T) :
    print ops type t = Line.header type :: printBody ops t := rfl

theorem body_notHeader {T Stamp : Type} (ops : TimerOps T Stamp) (t : T) (a b : Int) :
    ∀ x ∈ printBody ops t ++ crossCheck a b, notHeader x = true := by
  intro x hx
  unfold printBody crossCheck at hx
  split_ifs at hx <;> simp at hx <;> (try rcases hx with hx | hx | hx) <;> subst_vars <;> rfl

theorem body_totalLines {T Stamp : Type} (ops : TimerOps T Stamp) (type : String) (t : T)
    (a b : Int) :
    totalLines (Line.header type :: (printBody ops t ++ crossCheck a b))
      = (if a ≠ b then [a] else []) := by
  unfold printBody crossCheck totalLines
  split_ifs <;> rfl

theorem printBody_notHeader {T Stamp : Type} (ops : TimerOps T Stamp) (t : T) :
    ∀ x ∈ printBody ops t, notHeader x = true := by
  intro x hx
  have := body_notHeader ops t 0 0 x
  rw [crossCheck_self, List.append_nil] at this
  exact this hx

theorem printBody_totalLines {T Stamp : Type} (ops : TimerOps T Stamp) (type : String) (t : T) :
    totalLines (Line.header type :: printBody ops t) = [] := by
  have := body_totalLines ops type t 0 0
  rw [crossCheck_self, List.append_nil] at this
  simpa using this

/-! ## Lemmas on the rounding to `double` -/

theorem roundHalfEven_intCast (k : Int) : roundHalfEven (k : ℚ) = k := by
  unfold roundHalfEven
  simp

theorem roundHalfEven_nonneg (x : ℚ) (h : 0 ≤ x) : 0 ≤ roundHalfEven x := by
  have hf : 0 ≤ ⌊x⌋ := Int.floor_nonneg.mpr h
  unfold roundHalfEven
  split_ifs <;> omega

theorem toDouble_zero : toDouble 0 = 0 := by
  simp [toDouble, roundHalfEven]

theorem toDouble_nonneg (q : ℚ) (h : 0 ≤ q) : 0 ≤ toDouble q := by
  unfold toDouble
  have hp : (0 : ℚ) < 2 ^ ulpExp q := by positivity
  have hr : 0 ≤ roundHalfEven (q / 2 ^ ulpExp q) := roundHalfEven_nonneg _ (by positivity)
  have : (0 : ℚ) ≤ (roundHalfEven (q / 2 ^ ulpExp q) : ℚ) := by exact_mod_cast hr
  positivity

theorem ulpExp_le (q : ℚ) (e : Int) (hq : q ≠ 0) (he : -1074 ≤ e)
    (hlt : |q| < 2 ^ (e + 53)) : ulpExp q ≤ e := by
  have hpos : 0 < |q| := abs_pos.mpr hq
  have h2 : |q| < ((2 : ℕ) : ℚ) ^ (e + 53) := by simpa using hlt
  have hlog := (Int.lt_zpow_iff_log_lt (by norm_num : 1 < 2) hpos).mp h2
  unfold ulpExp
  omega

theorem toDouble_of_le (q : ℚ) (k : Int) (n : Nat) (hq : q = (k : ℚ) * 2 ^ ((n : Int) + ulpExp q)) :
    toDouble q = q := by
  have h2 : (2 : ℚ) ^ ulpExp q ≠ 0 := by positivity
  have hdiv : q / 2 ^ ulpExp q = ((k * 2 ^ n : Int) : ℚ) := by
    rw [div_eq_iff h2]
    push_cast
    rw [mul_assoc, ← zpow_natCast, ← zpow_add₀ (by norm_num : (2 : ℚ) ≠ 0)]
    exact hq
  unfold toDouble
  rw [hdiv, roundHalfEven_intCast, ← hdiv, div_mul_cancel₀ _ h2]

theorem toDouble_exact (m e : Int) (hm : |m| < 2 ^ 53) (he : -1074 ≤ e) :
    toDouble ((m : ℚ) * 2 ^ e) = (m : ℚ) * 2 ^ e := by
  by_cases h0 : m = 0
  · subst h0; simp [toDouble_zero]
  have hq : (m : ℚ) * 2 ^ e ≠ 0 := by
    have : (m : ℚ) ≠ 0 := by exact_mod_cast h0
    positivity
  have habs : |(m : ℚ) * 2 ^ e| < 2 ^ (e + 53) := by
    rw [abs_mul, abs_of_pos (by positivity : (0 : ℚ) < 2 ^ e), add_comm,
      zpow_add₀ (by norm_num : (2 : ℚ) ≠ 0)]
    have : |(m : ℚ)| < 2 ^ (53 : Int) := by
      have h53 : (2 : ℚ) ^ (53 : Int) = 9007199254740992 := by norm_num
      have hm2 : |m| < 9007199254740992 := by norm_num at hm; exact hm
      rw [h53]
      exact_mod_cast hm2
    exact mul_lt_mul_of_pos_right this (by positivity)
  have hu := ulpExp_le _ e hq he habs
  obtain ⟨n, hn⟩ := Int.eq_ofNat_of_zero_le (by omega : 0 ≤ e - ulpExp ((m : ℚ) * 2 ^ e))
  apply toDouble_of_le _ m n
  rw [← hn]
  congr 2
  ring

theorem toDouble_intCast_small (k : Int) (hk : |k| < 2 ^ 53) : toDouble (k : ℚ) = (k : ℚ) := by
  have := toDouble_exact k 0 hk (by norm_num)
  simpa using this

theorem toDouble_intCast (k : Int) : ∃ m : Int, toDouble (k : ℚ) = (m : ℚ) := by
  rcases le_or_lt (ulpExp (k : ℚ)) 0 with h | h
  · obtain ⟨n, hn⟩ := Int.eq_ofNat_of_zero_le (by omega : 0 ≤ 0 - ulpExp (k : ℚ))
    refine ⟨k, toDouble_of_le _ k n ?_⟩
    rw [← hn]
    simp
  · obtain ⟨n, hn⟩ := Int.eq_ofNat_of_zero_le (le_of_lt h)
    refine ⟨roundHalfEven ((k : ℚ) / 2 ^ ulpExp (k : ℚ)) * 2 ^ n, ?_⟩
    unfold toDouble
    push_cast
    rw [hn, zpow_natCast]
theorem toDouble_natCast_small (n : Nat) (hn : n < 2 ^ 53) : toDouble (n : ℚ) = (n : ℚ) := by
  have h := toDouble_intCast_small (n : Int) (by
    rw [abs_of_nonneg (Int.ofNat_nonneg n)]
    exact_mod_cast hn)
  simpa using h

theorem toDouble_natCast (n : Nat) : ∃ m : Int, toDouble (n : ℚ) = (m : ℚ) := by
  have h := toDouble_intCast (n : Int)
  simpa using h

/-! ## Lemmas on the timers -/

theorem truncQ_zero : truncQ 0 = 0 := by
  simp [truncQ]

theorem truncQ_intCast (k : Int) : truncQ (k : ℚ) = k := by
  simp [truncQ]

theorem truncQ_of_nonneg (q : ℚ) (h : 0 ≤ q) : truncQ q = ⌊q⌋ := by
  unfold truncQ
  rw [Int.tdiv_eq_ediv (Rat.num_nonneg.mpr h) (Int.ofNat_nonneg _), Rat.floor_def]

theorem truncQ_of_nonpos (q : ℚ) (h : q ≤ 0) : truncQ q = ⌈q⌉ := by
  have h1 : (0 : ℚ) ≤ -q := by linarith
  have h2 := truncQ_of_nonneg (-q) h1
  unfold truncQ at h2 ⊢
  rw [Rat.neg_num, Rat.neg_den, Int.neg_tdiv] at h2
  have h3 : ⌈q⌉ = -⌊-q⌋ := by rw [Int.floor_neg, neg_neg]
  rw [h3, ← h2, neg_neg]

theorem wrap64_of_inRange (z : Int) (h1 : 0 ≤ z) (h2 : z < 9223372036854775808) :
    wrap64 z = z := by
  unfold wrap64; omega

theorem wrap64_zero : wrap64 0 = 0 := by decide

theorem toSeconds_nonneg (num den : Nat) (count : Int) (h : 0 ≤ count) :
    0 ≤ toSeconds num den count := by
  have hc : (0 : ℚ) ≤ toDouble (count : ℚ) := toDouble_nonneg _ (by exact_mod_cast h)
  have hn : ∀ n : Nat, (0 : ℚ) ≤ toDouble (n : ℚ) := fun n => toDouble_nonneg _ (by positivity)
  unfold toSeconds
  dsimp only
  split_ifs
  · exact hc
  · exact toDouble_nonneg _ (mul_nonneg hc (hn _))
  · exact toDouble_nonneg _ (div_nonneg hc (hn _))
  · exact toDouble_nonneg _ (div_nonneg (toDouble_nonneg _ (mul_nonneg hc (hn _))) (hn _))

theorem toSeconds_zero (num den : Nat) : toSeconds num den 0 = 0 := by
  unfold toSeconds
  dsimp only
  split_ifs <;> simp [toDouble_zero]

theorem truncQ_nonneg (q : ℚ) (h : 0 ≤ q) : 0 ≤ truncQ q := by
  rw [truncQ_of_nonneg q h]
  exact Int.floor_nonneg.mpr h

theorem Timer3_GetMs_fraction_value (s e : Int) :
    Timer3.GetMs 1000000 { start := s, end_ := e, elapsed := 15625 } = 125 / 8 := by
  have e1 : toDouble ((15625 : Int) : ℚ) = 15625 := by
    simpa using toDouble_intCast_small 15625 (by norm_num)
  have e2 : toDouble ((1000000 : Nat) : ℚ) = 1000000 := by
    simpa using toDouble_natCast_small 1000000 (by norm_num)
  have e3 : toDouble ((15625 : ℚ) / 1000000) = 1 / 64 := by
    rw [show (15625 : ℚ) / 1000000 = ((1 : Int) : ℚ) * 2 ^ (-6 : Int) by norm_num,
      toDouble_exact 1 (-6) (by norm_num) (by norm_num)]
    norm_num
  have e4 : toDouble ((1 : ℚ) / 64 * 1000) = 125 / 8 := by
    rw [show (1 : ℚ) / 64 * 1000 = ((125 : Int) : ℚ) * 2 ^ (-3 : Int) by norm_num,
      toDouble_exact 125 (-3) (by norm_num) (by norm_num)]
    norm_num
  unfold Timer3.GetMs
  simp only [e1, e2, e3, e4]

/-! ## Theorems -/

/-- C3. For every `i`, `Foo (i)` returns `i` from `Get` and the decimal
representation of `i` from `GetString`: the string is the one `std::to_string`
computed at construction and reads back as `i`; for `i ≥ 0` it consists of
digits only (so it carries no sign) and starts with `0` only when it is the
string `"0"`, which happens exactly for `i = 0`. The strings for 0, 42 and
1000000 are `"0"`, `"42"` and `"1000000"`. -/
theorem Foo_payload (i : Int) :
    (Foo.new i).Get = i ∧
    (Foo.new i).GetString = to_string i ∧
    parseDecimal (Foo.new i).GetString = i ∧
    (0 ≤ i →
      (∀ c ∈ (Foo.new i).GetString.data, isDigit c = true) ∧
      ((Foo.new i).GetString.data.head? = some '0' → (Foo.new i).GetString = "0") ∧
      ((Foo.new i).GetString = "0" ↔ i = 0)) ∧
    (Foo.new 0).GetString = "0" ∧
    (Foo.new 42).GetString = "42" ∧
    (Foo.new 1000000).GetString = "1000000" := by
  refine ⟨rfl, rfl, parseDecimal_to_string i, ?_, by decide, by decide, by decide⟩
  intro hi
  have hs : (Foo.new i).GetString = String.mk (digitsCore (i.natAbs + 1) i.natAbs []) := by
    show to_string i = _
    unfold to_string
    rw [if_neg (by omega)]
  have hz : (Foo.new i).GetString = "0" ↔ i = 0 := by
    constructor
    · intro h
      have := parseDecimal_to_string i
      rw [show to_string i = "0" from h] at this
      rw [← this]; decide
    · intro h; subst h; decide
  refine ⟨?_, ?_, hz⟩
  · rw [hs]; exact digitsCore_isDigit _ _
  · intro hh
    rw [hs] at hh
    by_cases h0 : i = 0
    · exact hz.mpr h0
    · exact absurd hh (digitsCore_head _ _ (Nat.lt_succ_self _) (by omega))

theorem Foo_payload_witness :
    (0 : Int) ≤ 42 ∧ ((Foo.new 42).GetString = "0" ↔ (42 : Int) = 0) :=
  ⟨by decide, ((Foo_payload 42).2.2.2.1 (by decide)).2.2⟩


/-- C1 (amended). For every element count `n` that an `int` holds, `main`
returns, and at the end of each of the five traversals the accumulator `total`
holds `n * (n - 1) / 2` reduced to a 32-bit `int`. For `n ≤ 65536` that is
`n * (n - 1) / 2` itself, 45 for `n = 10`; for `n = 1000000` it is 1783293664. -/
theorem main_totals {T Stamp : Type} (ops : TimerOps T Stamp) (clock : Nat → Stamp)
    (hashOrder : List (Int × Foo) → List (Int × Foo))
    (timer : T) (n : Nat) (hn : (n : Int) ≤ INT_MAX)
    (hperm : (hashOrder (populate n (Containers.init n))._unordered).Perm
      (populate n (Containers.init n))._unordered) :
    ∃ r, main ops clock hashOrder timer n = some r ∧
      (r.mapTotal = wrap32 ((n : Int) * ((n : Int) - 1) / 2) ∧
       r.unorderedTotal = wrap32 ((n : Int) * ((n : Int) - 1) / 2) ∧
       r.vectorTotal = wrap32 ((n : Int) * ((n : Int) - 1) / 2) ∧
       r.listTotal = wrap32 ((n : Int) * ((n : Int) - 1) / 2) ∧
       r.arrayTotal = wrap32 ((n : Int) * ((n : Int) - 1) / 2)) ∧
      (n ≤ 65536 →
        r.mapTotal = (n : Int) * ((n : Int) - 1) / 2 ∧
        r.unorderedTotal = (n : Int) * ((n : Int) - 1) / 2 ∧
        r.vectorTotal = (n : Int) * ((n : Int) - 1) / 2 ∧
        r.listTotal = (n : Int) * ((n : Int) - 1) / 2 ∧
        r.arrayTotal = (n : Int) * ((n : Int) - 1) / 2) ∧
      (n = 10 →
        r.mapTotal = 45 ∧ r.unorderedTotal = 45 ∧ r.vectorTotal = 45 ∧
        r.listTotal = 45 ∧ r.arrayTotal = 45) ∧
      (n = 1000000 →
        r.mapTotal = 1783293664 ∧ r.unorderedTotal = 1783293664 ∧
        r.vectorTotal = 1783293664 ∧ r.listTotal = 1783293664 ∧
        r.arrayTotal = 1783293664) := by
  obtain ⟨ms, t1, t2, t3, t4, t5, h⟩ := main_eq ops clock hashOrder timer n hn hperm
  refine ⟨_, h, ⟨rfl, rfl, rfl, rfl, rfl⟩, ?_, ?_, ?_⟩
  · intro hs
    have := checksum_small n hs
    exact ⟨this, this, this, this, this⟩
  · intro h10
    subst h10
    have : checksum 10 = 45 := by decide
    exact ⟨this, this, this, this, this⟩
  · intro hm
    subst hm
    have : checksum 1000000 = 1783293664 := by decide
    exact ⟨this, this, this, this, this⟩

theorem main_totals_witness :
    ((10 : Nat) : Int) ≤ INT_MAX ∧
    ∃ r, main (Timer2.ops 1 1000000000) (fun k => (k : Int)) List.reverse Timer2.zero 10 = some r ∧
      r.mapTotal = 45 ∧ r.unorderedTotal = 45 ∧ r.vectorTotal = 45 ∧
      r.listTotal = 45 ∧ r.arrayTotal = 45 := by
  refine ⟨by decide, ?_⟩
  obtain ⟨r, hr, _, _, h10, _⟩ := main_totals (Timer2.ops 1 1000000000) (fun k => (k : Int))
    List.reverse Timer2.zero 10 (by decide) (List.reverse_perm _)
  exact ⟨r, hr, h10 rfl⟩

/-- C1 (as stated) fails for the shipped element count: after the map traversal
of a run with `n = 1000000` the accumulator holds 1783293664, not
499999500000, which no `int` holds. -/
theorem main_total_default_ne :
    ∃ r, main (Timer2.ops 1 1000000000) (fun k => (k : Int)) List.reverse Timer2.zero 1000000
        = some r ∧
      r.mapTotal = 1783293664 ∧
      r.mapTotal ≠ 499999500000 ∧
      ((1000000 : Int) * (1000000 - 1) / 2 = 499999500000) := by
  obtain ⟨ms, t1, t2, t3, t4, t5, h⟩ := main_eq (Timer2.ops 1 1000000000)
    (fun k => (k : Int)) List.reverse Timer2.zero 1000000 (by decide) (List.reverse_perm _)
  have hc : checksum 1000000 = 1783293664 := by decide
  refine ⟨_, h, hc, ?_, by decide⟩
  show checksum 1000000 ≠ 499999500000
  rw [hc]; decide

/-- C2. For every element count `n` that an `int` holds and every order in
which the `unordered_map` hands out its entries, `main` returns, the
accumulator of each of the five traversals equals the reference `actual`
taken after the map traversal, and the output has no `Total:` line. -/
theorem main_totals_agree {T Stamp : Type} (ops : TimerOps T Stamp) (clock : Nat → Stamp)
    (timer : T) (n : Nat) (hn : (n : Int) ≤ INT_MAX)
    (hashOrder : List (Int × Foo) → List (Int × Foo))
    (hperm : (hashOrder (populate n (Containers.init n))._unordered).Perm
      (populate n (Containers.init n))._unordered) :
    ∃ r, main ops clock hashOrder timer n = some r ∧
      r.mapTotal = r.actual ∧ r.unorderedTotal = r.actual ∧ r.vectorTotal = r.actual ∧
      r.listTotal = r.actual ∧ r.arrayTotal = r.actual ∧
      totalLines r.out = [] := by
  obtain ⟨ms, t1, t2, t3, t4, t5, h⟩ := main_eq ops clock hashOrder timer n hn hperm
  refine ⟨_, h, rfl, rfl, rfl, rfl, rfl, ?_⟩
  simp only [totalLines_append, totalLines_print]
  rfl

theorem main_totals_agree_witness :
    ((1000000 : Nat) : Int) ≤ INT_MAX ∧
    ∃ r, main (Timer3.ops 1000000) (fun k => (k : Int)) List.reverse
        { start := 0, end_ := 0, elapsed := 0 } 1000000 = some r ∧
      r.unorderedTotal = r.actual ∧ totalLines r.out = [] := by
  refine ⟨by decide, ?_⟩
  obtain ⟨r, hr, _, hu, _, _, _, ht⟩ := main_totals_agree (Timer3.ops 1000000)
    (fun k => (k : Int)) { start := 0, end_ := 0, elapsed := 0 } 1000000 (by decide)
    List.reverse (List.reverse_perm _)
  exact ⟨r, hr, hu, ht⟩

/-- C4. For every element count `n` that an `int` holds, after the allocation
loop each of the five containers holds exactly `n` payloads. The two maps have
the keys `0 .. n - 1`, each once, and the payload under key `i` has value `i`;
the vector, the list and the array have length `n` and their element `i` has
value `i` (and the string of `i`). -/
theorem populate_contents (n : Nat) (hn : (n : Int) ≤ INT_MAX) :
    ((populate n (Containers.init n))._map.length = n ∧
     (populate n (Containers.init n))._map.map Prod.fst = (List.range n).map Int.ofNat ∧
     ∀ k p, (k, p) ∈ (populate n (Containers.init n))._map → p.Get = k ∧ p = Foo.new k) ∧
    ((populate n (Containers.init n))._unordered.length = n ∧
     ((populate n (Containers.init n))._unordered.map Prod.fst).Perm
       ((List.range n).map Int.ofNat) ∧
     ∀ k p, (k, p) ∈ (populate n (Containers.init n))._unordered →
       p.Get = k ∧ p = Foo.new k) ∧
    ((populate n (Containers.init n))._vector.length = n ∧
     ∀ i, i < n → ∃ p, (populate n (Containers.init n))._vector[i]? = some p ∧
       p.Get = (i : Int) ∧ p.GetString = to_string (i : Int)) ∧
    ((populate n (Containers.init n))._list.length = n ∧
     ∀ i, i < n → ∃ p, (populate n (Containers.init n))._list[i]? = some p ∧
       p.Get = (i : Int) ∧ p.GetString = to_string (i : Int)) ∧
    ((populate n (Containers.init n)).array.length = n ∧
     ∀ i, i < n → ∃ p, (populate n (Containers.init n)).array[i]? = some (some p) ∧
       p.Get = (i : Int) ∧ p.GetString = to_string (i : Int)) := by
  rw [populate_eq n hn]
  have hmem : ∀ k p, (k, p) ∈ (List.range n).map entry → p.Get = k ∧ p = Foo.new k := by
    intro k p h
    simp only [List.mem_map, List.mem_range, entry, Prod.mk.injEq] at h
    obtain ⟨i, _, rfl, rfl⟩ := h
    exact ⟨rfl, rfl⟩
  have hkeys : ((List.range n).map entry).map Prod.fst = (List.range n).map Int.ofNat := by
    simp [entry, Function.comp_def]
  have hseq : ∀ i, i < n → ∃ p, ((List.range n).map payload)[i]? = some p ∧
      p.Get = (i : Int) ∧ p.GetString = to_string (i : Int) := by
    intro i hi
    refine ⟨payload i, ?_, rfl, rfl⟩
    simp [List.getElem?_range hi]
  refine ⟨⟨?_, hkeys, hmem⟩, ⟨?_, ?_, hmem⟩, ⟨?_, hseq⟩, ⟨?_, hseq⟩, ?_, ?_⟩
  · simp [filled]
  · simp [filled]
  · simp only [filled]; rw [hkeys]
  · simp [filled]
  · simp [filled]
  · simp [filled]
  · intro i hi
    refine ⟨payload i, ?_, rfl, rfl⟩
    simp [filled, hi]

theorem populate_contents_witness :
    ((3 : Nat) : Int) ≤ INT_MAX ∧
    (populate 3 (Containers.init 3))._map.map Prod.fst = (List.range 3).map Int.ofNat :=
  ⟨by decide, (populate_contents 3 (by decide)).1.2.1⟩

/-- C5 (evaluation of the code). `Timer1::Stop` on Linux stores the difference
of the `tv_nsec` fields alone, as a `uint64_t`: the `tv_sec` fields do not
enter. From (5 s, 900000000 ns) to (6 s, 100000000 ns), 200000000 ns apart,
it stores 18446744072909551616 and `GetMs` gives 18446744072909; from
(5 s, 0 ns) to (7 s, 0 ns), 2000000000 ns apart, it stores 0. -/
theorem Timer1_Stop_ignores_seconds :
    (∀ (t : Timer1) (s e : timespec),
      (Timer1.Stop (Timer1.Start t s) e).elapsed = wrapU64 (e.tv_nsec - s.tv_nsec)) ∧
    timespec.nsBetween ⟨5, 900000000⟩ ⟨6, 100000000⟩ = 200000000 ∧
    (Timer1.Stop (Timer1.Start ⟨⟨0, 0⟩, ⟨0, 0⟩, 0⟩ ⟨5, 900000000⟩) ⟨6, 100000000⟩).elapsed
      = 18446744072909551616 ∧
    (Timer1.Stop (Timer1.Start ⟨⟨0, 0⟩, ⟨0, 0⟩, 0⟩ ⟨5, 900000000⟩) ⟨6, 100000000⟩).GetMs
      = 18446744072909 ∧
    timespec.nsBetween ⟨5, 0⟩ ⟨7, 0⟩ = 2000000000 ∧
    (Timer1.Stop (Timer1.Start ⟨⟨0, 0⟩, ⟨0, 0⟩, 0⟩ ⟨5, 0⟩) ⟨7, 0⟩).elapsed = 0 := by
  refine ⟨fun _ _ _ => rfl, by decide, by decide, ?_, by decide, by decide⟩
  have h : (Timer1.Stop (Timer1.Start ⟨⟨0, 0⟩, ⟨0, 0⟩, 0⟩ ⟨5, 900000000⟩)
      ⟨6, 100000000⟩).elapsed = 18446744072909551616 := by decide
  unfold Timer1.GetMs
  rw [h, show (18446744072909551616 / 1000000 : Nat) = 18446744072909 by norm_num,
    toDouble_natCast_small _ (by norm_num)]
  norm_num

/-- C6 (as stated) fails for `Timer3`: with 1000000 clock ticks per second and
15625 ticks elapsed, `GetMs` returns 125/8 (15.625), not a whole number. Every
step of the computation (15625 / 1000000 = 1/64, times 1000) is exact in
`double`. -/
theorem Timer3_GetMs_fraction :
    Timer3.GetMs 1000000 (Timer3.Stop (Timer3.Start ⟨0, 0, 0⟩ 0) 15625) = 125 / 8 ∧
    ¬ ∃ k : Int, Timer3.GetMs 1000000 (Timer3.Stop (Timer3.Start ⟨0, 0, 0⟩ 0) 15625) = (k : ℚ) := by
  have hs : Timer3.Stop (Timer3.Start ⟨0, 0, 0⟩ 0) 15625
      = { start := 0, end_ := 15625, elapsed := 15625 } := by decide
  have h : Timer3.GetMs 1000000 (Timer3.Stop (Timer3.Start ⟨0, 0, 0⟩ 0) 15625) = 125 / 8 := by
    rw [hs]
    exact Timer3_GetMs_fraction_value 0 15625
  refine ⟨h, ?_⟩
  rintro ⟨k, hk⟩
  rw [h] at hk
  have h8 : (8 : ℚ) * (k : ℚ) = 125 := by rw [← hk]; norm_num
  have h8i : (8 : Int) * k = 125 := by exact_mod_cast h8
  omega

/-- C6 (amended). `Timer1::GetMs` and `Timer2::GetMs` return a whole number.
For `Timer1` it is the stored `elapsed` (a `uint64_t`) divided by 1000000 and
rounded down. For `Timer2` it is the `double` of the integer left when the
fraction is cut off the `double` product of the stored seconds and 1000, and
that integer itself when it is below 2^53 in magnitude. `Timer3::GetMs` is
the `double` quotient `elapsed / CLOCKS_PER_SEC` times 1000, rounded to a
`double` and not truncated (for a positive `CLOCKS_PER_SEC` and operands
below 2^53, which convert to `double` unchanged); it need not be whole: 15625
ticks at 1000000 ticks per second give 125/8. -/
theorem GetMs_whole :
    (∀ t : Timer1, (∃ k : Int, t.GetMs = (k : ℚ)) ∧
      (t.elapsed < 2 ^ 64 → t.GetMs = ((⌊(t.elapsed : ℚ) / 1000000⌋ : Int) : ℚ))) ∧
    (∀ t : Timer2, (∃ k : Int, t.GetMs = (k : ℚ)) ∧
      (|truncQ (toDouble (t.elapsed * 1000))| < 2 ^ 53 →
        t.GetMs = ((truncQ (toDouble (t.elapsed * 1000)) : Int) : ℚ))) ∧
    (∀ (CLOCKS_PER_SEC : Nat) (t : Timer3),
      0 < CLOCKS_PER_SEC → CLOCKS_PER_SEC < 2 ^ 53 → |t.elapsed| < 2 ^ 53 →
      Timer3.GetMs CLOCKS_PER_SEC t
        = toDouble (toDouble ((t.elapsed : ℚ) / (CLOCKS_PER_SEC : ℚ)) * 1000)) ∧
    Timer3.GetMs 1000000 { start := 0, end_ := 15625, elapsed := 15625 } = 125 / 8 := by
  refine ⟨?_, ?_, ?_, Timer3_GetMs_fraction_value 0 15625⟩
  · intro t
    refine ⟨toDouble_natCast _, ?_⟩
    intro h
    have hlt : t.elapsed / 1000000 < 2 ^ 53 := by
      norm_num at h ⊢
      omega
    unfold Timer1.GetMs
    rw [toDouble_natCast_small _ hlt]
    have := Rat.floor_natCast_div_natCast t.elapsed 1000000
    rw [show ((1000000 : Nat) : ℚ) = 1000000 by norm_num] at this
    rw [this]
    norm_cast
  · intro t
    exact ⟨toDouble_intCast _, fun h => toDouble_intCast_small _ h⟩
  · intro cps t _ hc ht
    unfold Timer3.GetMs
    rw [toDouble_intCast_small _ ht, toDouble_natCast_small _ hc]

theorem GetMs_whole_witness :
    ((1500000000 : Nat) < 2 ^ 64 ∧
      Timer1.GetMs { start := ⟨0, 0⟩, end_ := ⟨1, 500000000⟩, elapsed := 1500000000 }
        = ((⌊((1500000000 : Nat) : ℚ) / 1000000⌋ : Int) : ℚ)) ∧
    (|truncQ (toDouble ((1 / 4 : ℚ) * 1000))| < 2 ^ 53 ∧
      Timer2.GetMs { start := 0, end_ := 250000000, elapsed := 1 / 4 }
        = ((truncQ (toDouble ((1 / 4 : ℚ) * 1000)) : Int) : ℚ)) ∧
    ((0 : Nat) < 1000000 ∧ (1000000 : Nat) < 2 ^ 53 ∧ |(15625 : Int)| < 2 ^ 53 ∧
      Timer3.GetMs 1000000 { start := 0, end_ := 15625, elapsed := 15625 }
        = toDouble (toDouble (((15625 : Int) : ℚ) / ((1000000 : Nat) : ℚ)) * 1000)) := by
  have h2 : |truncQ (toDouble ((1 / 4 : ℚ) * 1000))| < 2 ^ 53 := by
    rw [show (1 / 4 : ℚ) * 1000 = ((250 : Int) : ℚ) by norm_num,
      toDouble_intCast_small 250 (by norm_num), truncQ_intCast]
    norm_num
  exact ⟨⟨by norm_num,
      (GetMs_whole.1 { start := ⟨0, 0⟩, end_ := ⟨1, 500000000⟩, elapsed := 1500000000 }).2
        (by norm_num)⟩,
    ⟨h2, (GetMs_whole.2.1 { start := 0, end_ := 250000000, elapsed := 1 / 4 }).2 h2⟩,
    ⟨by norm_num, by norm_num, by norm_num,
      GetMs_whole.2.2.1 1000000 { start := 0, end_ := 15625, elapsed := 15625 }
        (by norm_num) (by norm_num) (by norm_num)⟩⟩

/-- C7. After `Start` and then `Stop`: `Timer1` (Linux) returns `GetMs ≥ 0` and
`GetTicks ≥ 0` for any two timestamps; `Timer2` and `Timer3` do so when the
second reading of the clock is not before the first and their difference fits
the 64-bit tick count. When `Stop` reads the same timestamp as `Start`,
`GetMs` is 0 for all three. -/
theorem GetMs_GetTicks_nonneg :
    (∀ (t : Timer1) (s e : timespec),
      0 ≤ (Timer1.Stop (Timer1.Start t s) e).GetMs ∧
      0 ≤ (Timer1.Stop (Timer1.Start t s) e).GetTicks ∧
      (e = s → (Timer1.Stop (Timer1.Start t s) e).GetMs = 0)) ∧
    (∀ (num den : Nat) (t : Timer2) (s e : Int),
      (s ≤ e → e - s < 9223372036854775808 →
        0 ≤ (Timer2.Stop num den (Timer2.Start t s) e).GetMs ∧
        0 ≤ (Timer2.Stop num den (Timer2.Start t s) e).GetTicks) ∧
      (e = s → (Timer2.Stop num den (Timer2.Start t s) e).GetMs = 0)) ∧
    (∀ (CLOCKS_PER_SEC : Nat) (t : Timer3) (s e : Int),
      (s ≤ e → e - s < 9223372036854775808 →
        0 ≤ Timer3.GetMs CLOCKS_PER_SEC (Timer3.Stop (Timer3.Start t s) e) ∧
        0 ≤ (Timer3.Stop (Timer3.Start t s) e).GetTicks) ∧
      (e = s → Timer3.GetMs CLOCKS_PER_SEC (Timer3.Stop (Timer3.Start t s) e) = 0)) := by
  refine ⟨?_, ?_, ?_⟩
  · intro t s e
    refine ⟨toDouble_nonneg _ (by positivity), toDouble_nonneg _ (by positivity), ?_⟩
    intro h
    subst h
    simp [Timer1.GetMs, Timer1.Stop, Timer1.Start, wrapU64, toDouble_zero]
  · intro num den t s e
    constructor
    · intro hse he
      have hw : wrap64 (e - s) = e - s := wrap64_of_inRange _ (by omega) (by omega)
      have hel : 0 ≤ (Timer2.Stop num den (Timer2.Start t s) e).elapsed := by
        simp only [Timer2.Stop, Timer2.Start, hw]
        exact toSeconds_nonneg num den _ (by omega)
      refine ⟨?_, hel⟩
      unfold Timer2.GetMs
      have h1 : 0 ≤ truncQ (toDouble ((Timer2.Stop num den (Timer2.Start t s) e).elapsed * 1000)) :=
        truncQ_nonneg _ (toDouble_nonneg _ (by positivity))
      exact toDouble_nonneg _ (by exact_mod_cast h1)
    · intro h
      subst h
      simp [Timer2.GetMs, Timer2.Stop, Timer2.Start, wrap64_zero, truncQ_zero, toSeconds_zero,
        toDouble_zero]
  · intro cps t s e
    constructor
    · intro hse he
      have hw : wrap64 (e - s) = e - s := wrap64_of_inRange _ (by omega) (by omega)
      have hel : (0 : ℚ) ≤ (((Timer3.Stop (Timer3.Start t s) e).elapsed : Int) : ℚ) := by
        simp only [Timer3.Stop, Timer3.Start, hw]
        exact_mod_cast (by omega : (0 : Int) ≤ e - s)
      refine ⟨?_, toDouble_nonneg _ hel⟩
      unfold Timer3.GetMs
      have hc : (0 : ℚ) ≤ toDouble ((cps : Nat) : ℚ) := toDouble_nonneg _ (by positivity)
      have hq := toDouble_nonneg _ (div_nonneg (toDouble_nonneg _ hel) hc)
      exact toDouble_nonneg _ (by positivity)
    · intro h
      subst h
      simp [Timer3.GetMs, Timer3.Stop, Timer3.Start, wrap64_zero, toDouble_zero]

theorem GetMs_GetTicks_nonneg_witness :
    (1000 : Int) ≤ 2500 ∧ (2500 : Int) - 1000 < 9223372036854775808 ∧
    0 ≤ Timer3.GetMs 1000000 (Timer3.Stop (Timer3.Start ⟨0, 0, 0⟩ 1000) 2500) ∧
    0 ≤ (Timer3.Stop (Timer3.Start ⟨0, 0, 0⟩ 1000) 2500).GetTicks :=
  ⟨by decide, by decide,
    (GetMs_GetTicks_nonneg.2.2 1000000 ⟨0, 0, 0⟩ 1000 2500).1 (by decide) (by decide)⟩

/-- C8. Two runs of `main` for the same element count that use different
timers (any two timer classes, clocks and initial timer states) both return,
with the same five accumulators; both print five measurement blocks, labelled
`stl map`, `stl unordered_map`, `stl vector`, `stl list`, `array` in this
order; and after the line in which the timer names itself, the two outputs
are the same once the `ms` numbers are blanked and the `ticks:` lines are
removed. -/
theorem main_timer_independent {TA SA TB SB : Type}
    (opsA : TimerOps TA SA) (clockA : Nat → SA) (timerA : TA)
    (opsB : TimerOps TB SB) (clockB : Nat → SB) (timerB : TB)
    (hashOrder : List (Int × Foo) → List (Int × Foo))
    (n : Nat) (hn : (n : Int) ≤ INT_MAX)
    (hperm : (hashOrder (populate n (Containers.init n))._unordered).Perm
      (populate n (Containers.init n))._unordered) :
    ∃ rA rB, main opsA clockA hashOrder timerA n = some rA ∧
      main opsB clockB hashOrder timerB n = some rB ∧
      rA.mapTotal = rB.mapTotal ∧ rA.unorderedTotal = rB.unorderedTotal ∧
      rA.vectorTotal = rB.vectorTotal ∧ rA.listTotal = rB.listTotal ∧
      rA.arrayTotal = rB.arrayTotal ∧
      labels rA.out = ["stl map", "stl unordered_map", "stl vector", "stl list", "array"] ∧
      labels rB.out = ["stl map", "stl unordered_map", "stl vector", "stl list", "array"] ∧
      (rA.out.drop 1).filterMap eraseTiming = (rB.out.drop 1).filterMap eraseTiming := by
  obtain ⟨msA, a1, a2, a3, a4, a5, hA⟩ := main_eq opsA clockA hashOrder timerA n hn hperm
  obtain ⟨msB, b1, b2, b3, b4, b5, hB⟩ := main_eq opsB clockB hashOrder timerB n hn hperm
  refine ⟨_, _, hA, hB, rfl, rfl, rfl, rfl, rfl, ?_, ?_, ?_⟩
  · simp only [labels_append, labels_print]; rfl
  · simp only [labels_append, labels_print]; rfl
  · simp only [List.cons_append, List.nil_append, List.drop_succ_cons, List.drop_zero,
      List.filterMap_cons, List.filterMap_append, eraseTiming_print, eraseTiming]

theorem main_timer_independent_witness :
    ((10 : Nat) : Int) ≤ INT_MAX ∧
    ∃ rA rB,
      main (Timer1.ops 1) (fun k => { tv_sec := (k : Int), tv_nsec := 0 }) List.reverse
        { start := ⟨0, 0⟩, end_ := ⟨0, 0⟩, elapsed := 0 } 10 = some rA ∧
      main (Timer3.ops 1000000) (fun k => (k : Int) * 1500) List.reverse
        { start := 0, end_ := 0, elapsed := 0 } 10 = some rB ∧
      rA.mapTotal = rB.mapTotal ∧ labels rA.out = labels rB.out := by
  refine ⟨by decide, ?_⟩
  obtain ⟨rA, rB, hA, hB, hm, _, _, _, _, hlA, hlB, _⟩ := main_timer_independent
    (Timer1.ops 1) (fun k => { tv_sec := (k : Int), tv_nsec := 0 })
    { start := ⟨0, 0⟩, end_ := ⟨0, 0⟩, elapsed := 0 }
    (Timer3.ops 1000000) (fun k => (k : Int) * 1500) { start := 0, end_ := 0, elapsed := 0 }
    List.reverse 10 (by decide) (List.reverse_perm _)
  exact ⟨rA, rB, hA, hB, hm, by rw [hlA, hlB]⟩

/-- C9. For arbitrary contents of the five containers, provided the vector has
at least `n` elements and the first `n` slots of the array hold payloads (the
indexed traversals read nothing else), the five measurements return. The
reference `actual` is the accumulator of the map traversal and stays so. The
block of each of the four later traversals (unordered_map, vector, list,
array) has a line `Total: t` exactly when that traversal's accumulator `t`
differs from `actual`, and the value shown is `t`; the map block has none. In
every case all five blocks are printed, in order. -/
theorem measure_crossCheck {T Stamp : Type} (ops : TimerOps T Stamp) (clock : Nat → Stamp)
    (hashOrder : List (Int × Foo) → List (Int × Foo))
    (n : Nat) (c : Containers) (timer : T) (total : Int)
    (hvec : n ≤ c._vector.length)
    (harr : ∀ i, i < n → ∃ p, c.array[i]? = some (some p)) :
    ∃ r, measure ops clock hashOrder n c timer total = some r ∧
      r.actual = traverseMap c._map total ∧
      r.mapTotal = traverseMap c._map total ∧
      r.unorderedTotal = traverseMap (hashOrder c._unordered) 0 ∧
      traverseIndexed (fun i => c._vector[i]?) n 0 = some r.vectorTotal ∧
      r.listTotal = traverseList c._list 0 ∧
      traverseIndexed (fun i => (c.array[i]?).join) n 0 = some r.arrayTotal ∧
      totalLines (block "stl map" r.out) = [] ∧
      totalLines (block "stl unordered_map" r.out)
        = (if r.unorderedTotal ≠ r.actual then [r.unorderedTotal] else []) ∧
      totalLines (block "stl vector" r.out)
        = (if r.vectorTotal ≠ r.actual then [r.vectorTotal] else []) ∧
      totalLines (block "stl list" r.out)
        = (if r.listTotal ≠ r.actual then [r.listTotal] else []) ∧
      totalLines (block "array" r.out)
        = (if r.arrayTotal ≠ r.actual then [r.arrayTotal] else []) ∧
      labels r.out = ["stl map", "stl unordered_map", "stl vector", "stl list", "array"] := by
  obtain ⟨tv, hv⟩ := traverseIndexed_defined (fun i => c._vector[i]?) 0 n
    (fun i hi => ⟨c._vector[i], List.getElem?_eq_getElem (by omega)⟩)
  obtain ⟨ta, ha⟩ := traverseIndexed_defined (fun i => (c.array[i]?).join) 0 n
    (fun i hi => by
      obtain ⟨p, hp⟩ := harr i hi
      exact ⟨p, by simp only [hp]; rfl⟩)
  obtain ⟨t1, t2, t3, t4, t5, h⟩ := measure_eq ops clock hashOrder n c timer total tv ta hv ha
  refine ⟨_, h, rfl, rfl, rfl, hv, rfl, ha, ?_, ?_, ?_, ?_, ?_,
    by simp only [labels_append, labels_print, labels_crossCheck]; rfl⟩
  all_goals simp only [print_eq, List.cons_append, List.append_assoc]
  · rw [block_hit _ _ _ _ (printBody_notHeader ops t1)]
    exact printBody_totalLines ops _ t1
  · rw [block_miss _ _ _ _ (by decide) (printBody_notHeader ops t1),
      ← List.append_assoc, block_hit _ _ _ _ (body_notHeader ops t2 _ _)]
    exact body_totalLines ops _ t2 _ _
  · rw [block_miss _ _ _ _ (by decide) (printBody_notHeader ops t1),
      ← List.append_assoc, block_miss _ _ _ _ (by decide) (body_notHeader ops t2 _ _),
      ← List.append_assoc, block_hit _ _ _ _ (body_notHeader ops t3 _ _)]
    exact body_totalLines ops _ t3 _ _
  · rw [block_miss _ _ _ _ (by decide) (printBody_notHeader ops t1),
      ← List.append_assoc, block_miss _ _ _ _ (by decide) (body_notHeader ops t2 _ _),
      ← List.append_assoc, block_miss _ _ _ _ (by decide) (body_notHeader ops t3 _ _),
      ← List.append_assoc, block_hit _ _ _ _ (body_notHeader ops t4 _ _)]
    exact body_totalLines ops _ t4 _ _
  · rw [block_miss _ _ _ _ (by decide) (printBody_notHeader ops t1),
      ← List.append_assoc, block_miss _ _ _ _ (by decide) (body_notHeader ops t2 _ _),
      ← List.append_assoc, block_miss _ _ _ _ (by decide) (body_notHeader ops t3 _ _),
      ← List.append_assoc, block_miss _ _ _ _ (by decide) (body_notHeader ops t4 _ _),
      block_hit_last _ _ (body_notHeader ops t5 _ _)]
    exact body_totalLines ops _ t5 _ _

theorem measure_crossCheck_witness :
    2 ≤ ([Foo.new 1, Foo.new 2] : List Foo).length ∧
    ∃ r, measure (Timer3.ops 1000000) (fun k => (k : Int) * 1500) List.reverse 2
        { _map := [(0, Foo.new 5)], _unordered := [(0, Foo.new 5)],
          _vector := [Foo.new 1, Foo.new 2], _list := [Foo.new 5],
          array := [some (Foo.new 4), some (Foo.new 1)] } ⟨0, 0, 0⟩ 0 = some r ∧
      r.actual = 5 ∧
      totalLines (block "stl unordered_map" r.out) = [] ∧
      totalLines (block "stl vector" r.out) = [3] ∧
      totalLines (block "stl list" r.out) = [] := by
  refine ⟨by decide, ?_⟩
  obtain ⟨r, hr, hact, _, hun, hvec, hlist, _, _, h2, h3, h4, _, _⟩ := measure_crossCheck
    (Timer3.ops 1000000) (fun k => (k : Int) * 1500) List.reverse 2
    { _map := [(0, Foo.new 5)], _unordered := [(0, Foo.new 5)],
      _vector := [Foo.new 1, Foo.new 2], _list := [Foo.new 5],
      array := [some (Foo.new 4), some (Foo.new 1)] } ⟨0, 0, 0⟩ 0 (by decide)
    (fun i hi => by interval_cases i <;> exact ⟨_, rfl⟩)
  have ha : r.actual = 5 := by rw [hact]; decide
  have hu : r.unorderedTotal = 5 := by rw [hun]; decide
  have hv : r.vectorTotal = 3 := by
    have : some r.vectorTotal = some 3 := by rw [← hvec]; decide
    exact Option.some.inj this
  have hl : r.listTotal = 5 := by rw [hlist]; decide
  refine ⟨r, hr, ha, ?_, ?_, ?_⟩
  · rw [h2, hu, ha]; decide
  · rw [h3, hv, ha]; decide
  · rw [h4, hl, ha]; decide

/-- C10. With the accumulator a 32-bit `int`: for every element count
`n ≤ 65536`, at every point `k ≤ n` of each traversal in ascending order (map,
vector, list, array) the accumulator holds the true partial sum
`k * (k - 1) / 2`, which is at most `INT_MAX`, so no addition overflows, and
all five final accumulators are `n * (n - 1) / 2` exactly. For every larger `n`
the five accumulators differ from `n * (n - 1) / 2`. 65537 is the least count
whose sum exceeds `INT_MAX`. -/
theorem accumulator_exact_upto {T Stamp : Type} (ops : TimerOps T Stamp) (clock : Nat → Stamp)
    (hashOrder : List (Int × Foo) → List (Int × Foo))
    (timer : T) (n : Nat) (hn : (n : Int) ≤ INT_MAX)
    (hperm : (hashOrder (populate n (Containers.init n))._unordered).Perm
      (populate n (Containers.init n))._unordered) :
    ∃ r, main ops clock hashOrder timer n = some r ∧
      (n ≤ 65536 →
        (∀ k : Nat, k ≤ n →
          (k : Int) * ((k : Int) - 1) / 2 ≤ INT_MAX ∧
          traverseMap ((populate n (Containers.init n))._map.take k) 0
            = (k : Int) * ((k : Int) - 1) / 2 ∧
          traverseIndexed (fun i => (populate n (Containers.init n))._vector[i]?) k 0
            = some ((k : Int) * ((k : Int) - 1) / 2) ∧
          traverseList ((populate n (Containers.init n))._list.take k) 0
            = (k : Int) * ((k : Int) - 1) / 2 ∧
          traverseIndexed (fun i => ((populate n (Containers.init n)).array[i]?).join) k 0
            = some ((k : Int) * ((k : Int) - 1) / 2)) ∧
        r.mapTotal = (n : Int) * ((n : Int) - 1) / 2 ∧
        r.unorderedTotal = (n : Int) * ((n : Int) - 1) / 2 ∧
        r.vectorTotal = (n : Int) * ((n : Int) - 1) / 2 ∧
        r.listTotal = (n : Int) * ((n : Int) - 1) / 2 ∧
        r.arrayTotal = (n : Int) * ((n : Int) - 1) / 2) ∧
      (65536 < n →
        r.mapTotal ≠ (n : Int) * ((n : Int) - 1) / 2 ∧
        r.unorderedTotal ≠ (n : Int) * ((n : Int) - 1) / 2 ∧
        r.vectorTotal ≠ (n : Int) * ((n : Int) - 1) / 2 ∧
        r.listTotal ≠ (n : Int) * ((n : Int) - 1) / 2 ∧
        r.arrayTotal ≠ (n : Int) * ((n : Int) - 1) / 2) ∧
      INT_MAX < (65537 : Int) * (65537 - 1) / 2 ∧
      (∀ m : Nat, m < 65537 → (m : Int) * ((m : Int) - 1) / 2 ≤ INT_MAX) := by
  obtain ⟨ms, t1, t2, t3, t4, t5, h⟩ := main_eq ops clock hashOrder timer n hn hperm
  refine ⟨_, h, ?_, ?_, by decide, fun m hm => (triangle_small m (by omega)).2⟩
  · intro hs
    have hfin := checksum_small n hs
    refine ⟨?_, hfin, hfin, hfin, hfin, hfin⟩
    intro k hk
    have hck := checksum_small k (by omega)
    rw [populate_eq n hn, filled_map_prefix n k hk, filled_vector_prefix n k hk,
      filled_list_prefix n k hk, filled_array_prefix n k hk, hck]
    exact ⟨(triangle_small k (by omega)).2, rfl, rfl, rfl, rfl⟩
  · intro hl
    have hne := checksum_large n hl
    exact ⟨hne, hne, hne, hne, hne⟩

theorem accumulator_exact_upto_witness :
    ((65536 : Nat) : Int) ≤ INT_MAX ∧
    ∃ r, main (Timer2.ops 1 1000000000) (fun k => (k : Int)) List.reverse Timer2.zero 65536
        = some r ∧
      r.mapTotal = 2147450880 ∧ r.arrayTotal = 2147450880 := by
  refine ⟨by decide, ?_⟩
  obtain ⟨r, hr, hs, _⟩ := accumulator_exact_upto (Timer2.ops 1 1000000000)
    (fun k => (k : Int)) List.reverse Timer2.zero 65536 (by decide) (List.reverse_perm _)
  obtain ⟨_, h1, _, _, _, h5⟩ := hs (le_refl _)
  exact ⟨r, hr, by rw [h1]; decide, by rw [h5]; decide⟩

end StlBenchmark
